import Mathlib

/-!
Shallow embedding of `workflows.py` (post-fMRIPrep FSL analysis workflows)
and proofs about its data-transformation helpers and pipeline wiring.

Numeric table values are idealized as rationals (`Rat`); a missing value
(NaN) in the confounds table is `Option.none`.  Filesystem effects are
reduced to the data they carry.
-/

namespace Workflows

/-- A cell of the confounds table: `none` models a missing (NaN) value. -/
abbrev Cell := Option Rat

/-- Confounds table (`regressors_file` read by `pd.read_csv(..., sep=r'\s+')`):
named columns, each a list of cells (one per timepoint). -/
structure RegTable where
  cols : List (String × List Cell)
deriving DecidableEq, Repr

/-- `regress_data.columns`. -/
def RegTable.columns (t : RegTable) : List String :=
  t.cols.map Prod.fst

/-- `regress_data[name]` for a single column name: the first column carrying
that name, if any. -/
def RegTable.getCol (t : RegTable) (name : String) : Option (List Cell) :=
  (t.cols.find? (fun c => c.1 = name)).map Prod.snd

/-- `regress_data[names]` for a list of names: pandas raises `KeyError`
(modelled as `none`) when any requested name is absent; otherwise it yields
the columns in the order of `names`. -/
def RegTable.select (t : RegTable) (names : List String) : Option (List (List Cell)) :=
  if names.all (fun n => (t.getCol n).isSome) then
    some (names.map (fun n => (t.getCol n).getD []))
  else none

/-- One row of the events table. The `amplitudes` field is meaningful only
when the whole table has an `amplitudes` column (see
`EventsTable.hasAmplitudes`). -/
structure EventRow where
  trial_type : String
  onset : Rat
  duration : Rat
  amplitudes : Rat := 0
deriving DecidableEq, Repr

/-- Events table (`events_file` read by `pd.read_csv(..., sep=r'\s+')`).
`hasAmplitudes` models the test `'amplitudes' in events.columns`. -/
structure EventsTable where
  hasAmplitudes : Bool
  rows : List EventRow
deriving DecidableEq, Repr

/-- `pandas.Series.str.match(pat)` anchors the regular expression `pat` at
the start of the string. The trial-type labels used as patterns here are
metacharacter-free, for which the anchored regex match is exactly a
character-prefix test, which is what we embed. -/
def prefMatch : List Char → List Char → Bool
  | [], _ => true
  | _ :: _, [] => false
  | p :: ps, c :: cs => p == c && prefMatch ps cs

/-- `events.trial_type.str.match(condition)` on one entry. -/
def reMatch (pat s : String) : Bool :=
  prefMatch pat.data s.data

/-- `events[events.trial_type.str.match(condition)]`. -/
def matchedRows (ev : EventsTable) (condition : String) : List EventRow :=
  ev.rows.filter (fun r => reMatch condition r.trial_type)

/-- `list(set(xs))` for strings. CPython's set iteration order is
implementation-defined, so we model it deterministically as order of first
appearance; the theorems below either hold for any enumeration order or
locate a condition by its label rather than by position. -/
def dedupFirst (seen : List String) : List String → List String
  | [] => []
  | x :: xs =>
      if seen.contains x then dedupFirst seen xs
      else x :: dedupFirst (x :: seen) xs

/-- `list(set(xs))`, first-appearance order (see `dedupFirst`). -/
def pySet (xs : List String) : List String :=
  dedupFirst [] xs

/-- The default `motion_columns`:
`['_'.join(v) for v in product(('trans', 'rot'), 'xyz')]`. -/
def motionDefault : List String :=
  ["trans_x", "trans_y", "trans_z", "rot_x", "rot_y", "rot_z"]

/-- Python's `≤` on strings used by `sorted`: lexicographic comparison of
code points, on the character lists. -/
def charListLe : List Char → List Char → Bool
  | [], _ => true
  | _ :: _, [] => false
  | a :: as, b :: bs =>
      if a = b then charListLe as bs
      else decide (a.toNat < b.toNat)

/-- Python's `≤` on strings (lexicographic by code point). -/
def strLe (a b : String) : Bool :=
  charListLe a.data b.data

/-- Insertion step of `sortStrings`. -/
def insertStr (x : String) : List String → List String
  | [] => [x]
  | y :: l => if strLe x y then x :: y :: l else y :: insertStr x l

/-- Python's `sorted` on strings (insertion sort by `strLe`; `sorted` is a
comparison sort, so any sort by the same order yields the same list on
duplicate-free input). -/
def sortStrings : List String → List String
  | [] => []
  | x :: l => insertStr x (sortStrings l)

/-- `sorted(set(regress_data.columns) - set(motion_columns))`. -/
def defaultRegNames (cols mc : List String) : List String :=
  sortStrings ((cols.filter (fun c => !mc.contains c)).dedup)

/-- The regressor names after the `if regressors_names is None:` default. -/
def resolvedRegNames (t : RegTable) (rn : Option (List String)) (mc : List String) :
    List String :=
  match rn with
  | none => defaultRegNames t.columns mc
  | some ns => ns

/-- `list(set(regressors_names).intersection(set(regress_data.columns)))`,
again modelled in first-appearance order. -/
def interNames (ns cols : List String) : List String :=
  (pySet ns).filter (fun n => cols.contains n)

/-- `fillna(0.0)` applied to one cell. -/
def fillCell (c : Cell) : Rat :=
  c.getD 0

/-- `np.round` to the nearest integer (IEEE round-half-even), on the
fraction `n / d` with `d > 0`: `f` is the floor, `rem2` twice the
remainder, and a remainder of exactly half rounds to the even neighbour. -/
def roundHalfEvenInt (n : Int) (d : Nat) : Int :=
  let f := n.fdiv d
  let rem2 := 2 * (n - f * d)
  if rem2 < d then f
  else if (d : Int) < rem2 then f + 1
  else if f % 2 = 0 then f else f + 1

/-- `np.round(x, d)` on one value, idealized on ℚ:
`roundHalfEven (x * 10 ^ d) / 10 ^ d`, computed on numerator and
denominator (`mkRat (x.num * 10 ^ d) x.den` *is* `x * 10 ^ d`). -/
def npRound (d : Nat) (x : Rat) : Rat :=
  let scaled := mkRat (x.num * (10 ^ d : Nat)) x.den
  mkRat (roundHalfEvenInt scaled.num scaled.den) (10 ^ d)

/-- The `Bunch` run-info object. The Python code attaches the
`regressor_names` / `regressors` attributes only when the resolved
regressor-name list is non-empty, so those two fields are `Option`s and
`none` models the attribute being absent from the `Bunch`. -/
structure RunInfo where
  scans : String
  conditions : List String
  onsets : List (List Rat)
  durations : List (List Rat)
  amplitudes : List (List Rat)
  regressor_names : Option (List String) := none
  regressors : Option (List (List Rat)) := none
deriving DecidableEq, Repr

/-- `list(set(events.trial_type.values))`: the condition labels. -/
def conditionsOf (ev : EventsTable) : List String :=
  pySet (ev.rows.map (fun r => r.trial_type))

/-- The per-condition onset lists: one entry per matched row,
`np.round(event.onset.values, 3)`. -/
def onsetsOf (ev : EventsTable) : List (List Rat) :=
  (conditionsOf ev).map (fun c => (matchedRows ev c).map (fun r => npRound 3 r.onset))

/-- The per-condition duration lists, `np.round(event.duration.values, 3)`. -/
def durationsOf (ev : EventsTable) : List (List Rat) :=
  (conditionsOf ev).map (fun c => (matchedRows ev c).map (fun r => npRound 3 r.duration))

/-- The per-condition amplitude lists: the rounded `amplitudes` column when
the table has one, else `[amplitude] * len(event)`. -/
def amplitudesOf (ev : EventsTable) (amplitude : Rat) : List (List Rat) :=
  (conditionsOf ev).map (fun c =>
    if ev.hasAmplitudes then
      (matchedRows ev c).map (fun r => npRound 3 r.amplitudes)
    else
      List.replicate (matchedRows ev c).length amplitude)

/-- The regressor matrix: `regress_data[regressors_names]`, falling back on
`KeyError` to the intersection with the available columns, then
`.fillna(0.0).values.T.tolist()` (a list of columns). -/
def regressorsOf (t : RegTable) (regNames : List String) : List (List Rat) :=
  let sel : List (List Cell) :=
    match t.select regNames with
    | some colsSel => colsSel
    | none => (t.select (interNames regNames t.columns)).getD []
  sel.map (fun col => col.map fillCell)

/-- Shallow embedding of `_bids2nipypeinfo`.  The returned second component
is the motion-parameter data written to `motion.par` (the selected motion
columns; the sidecar file holds its transpose, '%g'-formatted — the textual
formatting is not modelled).  `none` models the uncaught `KeyError` raised
when a motion column is missing from the confounds table.  The `decimals`
parameter is accepted but — exactly as in the source — never used: every
`np.round` call hardcodes 3. -/
def _bids2nipypeinfo (in_file : String) (events : EventsTable) (regress_data : RegTable)
    (regressors_names : Option (List String) := none)
    (motion_columns : List String := [])
    (decimals : Nat := 3) (amplitude : Rat := 1) :
    Option (List RunInfo × List (List Cell)) :=
  let _ := decimals
  let mc := if motion_columns.isEmpty then motionDefault else motion_columns
  match regress_data.select mc with
  | none => none
  | some motionData =>
    let regNames := resolvedRegNames regress_data regressors_names mc
    if regNames.isEmpty then
      some ([{ scans := in_file, conditions := conditionsOf events,
               onsets := onsetsOf events, durations := durationsOf events,
               amplitudes := amplitudesOf events amplitude }], motionData)
    else
      some ([{ scans := in_file, conditions := conditionsOf events,
               onsets := onsetsOf events, durations := durationsOf events,
               amplitudes := amplitudesOf events amplitude,
               regressor_names := some regNames,
               regressors := some (regressorsOf regress_data regNames) }], motionData)

/-- `_len` from `workflows.py`. -/
def _len {α : Type} (inlist : List α) : Nat :=
  inlist.length

/-- `_dof` from `workflows.py` (a Python `int`, so it may be negative). -/
def _dof {α : Type} (inlist : List α) : Int :=
  (inlist.length : Int) - 1

/-- `_neg` from `workflows.py`. -/
def _neg (val : Rat) : Rat :=
  -val

/-- One `workflow.connect` edge: source node/port to destination node/port. -/
structure Connection where
  src : String
  srcPort : String
  dst : String
  dstPort : String
deriving DecidableEq, Repr

/-- `feat_select`'s `SelectFiles` templates in `first_level_wf`
(result type ↦ fixed relative path under the FEAT output directory). -/
def featSelectTemplates : List (String × String) :=
  [("cope", "stats/cope1.nii.gz"),
   ("pe", "stats/pe[0-9][0-9].nii.gz"),
   ("tstat", "stats/tstat1.nii.gz"),
   ("varcope", "stats/varcope1.nii.gz"),
   ("zstat", "stats/zstat1.nii.gz")]

/-- A `DerivativesDataSink` node of `first_level_wf` with its result-type
`suffix` and `desc` metadata. -/
structure SinkCfg where
  name : String
  suffix : String
  desc : String
deriving DecidableEq, Repr

/-- The four derivatives sinks declared in `first_level_wf`. -/
def firstLevelSinks : List SinkCfg :=
  [⟨"ds_cope", "cope", "intask"⟩,
   ⟨"ds_varcope", "varcope", "intask"⟩,
   ⟨"ds_zstat", "zstat", "intask"⟩,
   ⟨"ds_tstat", "tstat", "intask"⟩]

/-- The `workflow.connect` list of `first_level_wf`, edge by edge. -/
def firstLevelConnections : List Connection :=
  [⟨"datasource", "bold", "susan", "inputnode.in_files"⟩,
   ⟨"datasource", "mask", "susan", "inputnode.mask_file"⟩,
   ⟨"datasource", "events", "runinfo", "events_file"⟩,
   ⟨"datasource", "regressors", "runinfo", "regressors_file"⟩,
   ⟨"susan", "outputnode.smoothed_files", "l1_spec", "functional_runs"⟩,
   ⟨"datasource", "tr", "l1_spec", "time_repetition"⟩,
   ⟨"datasource", "tr", "l1_model", "interscan_interval"⟩,
   ⟨"datasource", "bold", "ds_cope", "source_file"⟩,
   ⟨"datasource", "bold", "ds_varcope", "source_file"⟩,
   ⟨"datasource", "bold", "ds_zstat", "source_file"⟩,
   ⟨"datasource", "bold", "ds_tstat", "source_file"⟩,
   ⟨"susan", "outputnode.smoothed_files", "runinfo", "in_file"⟩,
   ⟨"runinfo", "info", "l1_spec", "subject_info"⟩,
   ⟨"runinfo", "realign_file", "l1_spec", "realignment_parameters"⟩,
   ⟨"l1_spec", "session_info", "l1_model", "session_info"⟩,
   ⟨"l1_model", "fsf_files", "feat_spec", "fsf_file"⟩,
   ⟨"l1_model", "ev_files", "feat_spec", "ev_files"⟩,
   ⟨"l1_model", "fsf_files", "feat_fit", "fsf_file"⟩,
   ⟨"feat_fit", "feat_dir", "feat_select", "base_directory"⟩,
   ⟨"feat_select", "cope", "ds_cope", "in_file"⟩,
   ⟨"feat_select", "varcope", "ds_varcope", "in_file"⟩,
   ⟨"feat_select", "zstat", "ds_zstat", "in_file"⟩,
   ⟨"feat_select", "tstat", "ds_tstat", "in_file"⟩]

/-- Result type `k` is staged into the derivatives directory: some sink
carries `suffix` tag `k`, receives `feat_select`'s output `k` on `in_file`,
and receives the subject-bearing `source_file` from the datasource's BOLD
entry. -/
def staged (k : String) : Prop :=
  ∃ s ∈ firstLevelSinks, s.suffix = k ∧
    (⟨"feat_select", k, s.name, "in_file"⟩ : Connection) ∈ firstLevelConnections ∧
    (⟨"datasource", "bold", s.name, "source_file"⟩ : Connection) ∈ firstLevelConnections

instance stagedDec (k : String) : Decidable (staged k) := by
  unfold staged
  infer_instance

/-! ### Concrete fixtures -/

/-- A one-timepoint confounds table holding only the six motion columns. -/
def motionOnlyT : RegTable :=
  ⟨[("trans_x", [some 0]), ("trans_y", [some 0]), ("trans_z", [some 0]),
    ("rot_x", [some 0]), ("rot_y", [some 0]), ("rot_z", [some 0])]⟩

/-- The six motion columns plus one extra confound column `a`. -/
def regOneExtraT : RegTable :=
  ⟨[("trans_x", [some 0]), ("trans_y", [some 0]), ("trans_z", [some 0]),
    ("rot_x", [some 0]), ("rot_y", [some 0]), ("rot_z", [some 0]),
    ("a", [some 1])]⟩

/-- Events table with a single row: trial type `A`, onset 1.234,
duration 0.5678, no amplitudes column. -/
def evRound : EventsTable :=
  ⟨false, [{ trial_type := "A", onset := mkRat 1234 1000, duration := mkRat 5678 10000 }]⟩

/-- 10-row events table: trial type `A` on 6 rows, `B` on 4 rows, integral
onsets, unit durations, no amplitudes column. -/
def evTwoTypes : EventsTable :=
  ⟨false,
   [⟨"A", 0, 1, 0⟩, ⟨"A", 10, 1, 0⟩, ⟨"A", 20, 1, 0⟩,
    ⟨"A", 30, 1, 0⟩, ⟨"A", 40, 1, 0⟩, ⟨"A", 50, 1, 0⟩,
    ⟨"B", 5, 1, 0⟩, ⟨"B", 15, 1, 0⟩, ⟨"B", 25, 1, 0⟩, ⟨"B", 35, 1, 0⟩]⟩

/-- The six motion columns plus `b` and `a` (unsorted on purpose). -/
def regBAT : RegTable :=
  ⟨[("trans_x", [some 0]), ("trans_y", [some 0]), ("trans_z", [some 0]),
    ("rot_x", [some 0]), ("rot_y", [some 0]), ("rot_z", [some 0]),
    ("b", [some 1]), ("a", [some 2])]⟩

/-- Motion columns plus a confound column `a` holding a missing value. -/
def regNaNT : RegTable :=
  ⟨[("trans_x", [some 0, some 0]), ("trans_y", [some 0, some 0]),
    ("trans_z", [some 0, some 0]), ("rot_x", [some 0, some 0]),
    ("rot_y", [some 0, some 0]), ("rot_z", [some 0, some 0]),
    ("a", [some 2, none])]⟩

/-- Events table with trial types `A` and `AB`, the former a prefix of the
latter. -/
def evAB : EventsTable :=
  ⟨false, [⟨"A", 0, 1, 0⟩, ⟨"AB", 7, 2, 0⟩]⟩

/-! ### Supporting lemmas -/

theorem getCol_isSome_iff {t : RegTable} {n : String} :
    (t.getCol n).isSome = true ↔ n ∈ t.columns := by
  simp [RegTable.getCol, RegTable.columns, List.find?_isSome]

theorem select_eq_some_of_forall_mem {t : RegTable} {names : List String}
    (h : ∀ n ∈ names, n ∈ t.columns) :
    t.select names = some (names.map (fun n => (t.getCol n).getD [])) := by
  unfold RegTable.select
  rw [if_pos]
  rw [List.all_eq_true]
  intro n hn
  exact getCol_isSome_iff.mpr (h n hn)

theorem mem_dedupFirst : ∀ {l seen : List String} {x : String},
    x ∈ dedupFirst seen l ↔ (x ∈ l ∧ x ∉ seen) := by
  intro l
  induction l with
  | nil => intro seen x; simp [dedupFirst]
  | cons y l ih =>
    intro seen x
    by_cases hy : seen.contains y = true
    · have hy' : y ∈ seen := by simpa using hy
      simp only [dedupFirst, if_pos hy, ih, List.mem_cons]
      constructor
      · rintro ⟨hxl, hxs⟩; exact ⟨Or.inr hxl, hxs⟩
      · rintro ⟨hx, hxs⟩
        rcases hx with rfl | hxl
        · exact absurd hy' hxs
        · exact ⟨hxl, hxs⟩
    · have hy' : y ∉ seen := by simpa using hy
      simp only [dedupFirst, if_neg hy, List.mem_cons, ih]
      by_cases hxy : x = y
      · subst hxy; simp [hy']
      · simp [hxy]

theorem mem_pySet {x : String} {l : List String} : x ∈ pySet l ↔ x ∈ l := by
  simp [pySet, mem_dedupFirst]

theorem mem_interNames {n : String} {ns cols : List String} :
    n ∈ interNames ns cols ↔ (n ∈ ns ∧ n ∈ cols) := by
  simp [interNames, List.mem_filter, mem_pySet]

theorem charListLe_refl : ∀ l : List Char, charListLe l l = true
  | [] => rfl
  | a :: as => by simp [charListLe, charListLe_refl as]

theorem charListLe_total : ∀ as bs : List Char,
    charListLe as bs = true ∨ charListLe bs as = true
  | [], _ => Or.inl rfl
  | _ :: _, [] => Or.inr rfl
  | a :: as, b :: bs => by
      by_cases h : a = b
      · subst h
        simpa [charListLe] using charListLe_total as bs
      · have h' : ¬ b = a := fun e => h e.symm
        simp only [charListLe, if_neg h, if_neg h']
        rcases Nat.lt_trichotomy a.toNat b.toNat with hlt | heq | hgt
        · exact Or.inl (by simpa using hlt)
        · exact absurd (Char.ext (UInt32.toNat.inj heq)) h
        · exact Or.inr (by simpa using hgt)

theorem charListLe_trans : ∀ {as bs cs : List Char},
    charListLe as bs = true → charListLe bs cs = true → charListLe as cs = true
  | [], _, _, _, _ => rfl
  | _ :: _, [], _, h1, _ => by simp [charListLe] at h1
  | _ :: _, _ :: _, [], _, h2 => by simp [charListLe] at h2
  | a :: as, b :: bs, c :: cs, h1, h2 => by
      by_cases hab : a = b <;> by_cases hbc : b = c
      · subst hab; subst hbc
        simp only [charListLe, if_pos rfl] at h1 h2 ⊢
        exact charListLe_trans h1 h2
      · subst hab
        simp only [charListLe, if_pos rfl, if_neg hbc] at h1 h2
        have hac : ¬ a = c := hbc
        simp only [charListLe, if_neg hac]
        exact h2
      · subst hbc
        simp only [charListLe, if_neg hab, if_pos rfl] at h1
        have hac : ¬ a = b := hab
        simp only [charListLe, if_neg hac]
        exact h1
      · simp only [charListLe, if_neg hab, if_neg hbc] at h1 h2
        have hlt : a.toNat < b.toNat := by simpa using h1
        have hlt' : b.toNat < c.toNat := by simpa using h2
        have hac : a.toNat < c.toNat := Nat.lt_trans hlt hlt'
        have hne : ¬ a = c := fun e => by subst e; exact Nat.lt_irrefl _ (Nat.lt_trans hlt hlt')
        simp only [charListLe, if_neg hne]
        simpa using hac

theorem strLe_total (a b : String) : strLe a b = true ∨ strLe b a = true :=
  charListLe_total a.data b.data

theorem strLe_trans {a b c : String} (h1 : strLe a b = true) (h2 : strLe b c = true) :
    strLe a c = true :=
  charListLe_trans h1 h2

theorem mem_insertStr {z x : String} : ∀ {l : List String},
    z ∈ insertStr x l ↔ z = x ∨ z ∈ l := by
  intro l
  induction l with
  | nil => simp [insertStr]
  | cons y l ih =>
    by_cases h : strLe x y = true
    · simp [insertStr, h, List.mem_cons]
    · simp only [insertStr, if_neg h, List.mem_cons, ih]
      tauto

theorem insertStr_perm (x : String) : ∀ l : List String, (insertStr x l).Perm (x :: l)
  | [] => List.Perm.refl _
  | y :: l => by
      by_cases h : strLe x y = true
      · rw [insertStr, if_pos h]
      · rw [insertStr, if_neg h]
        exact ((insertStr_perm x l).cons y).trans (List.Perm.swap x y l)

theorem sortStrings_perm : ∀ l : List String, (sortStrings l).Perm l
  | [] => List.Perm.refl _
  | x :: l => (insertStr_perm x (sortStrings l)).trans ((sortStrings_perm l).cons x)

theorem pairwise_insertStr {x : String} : ∀ {l : List String},
    l.Pairwise (fun a b => strLe a b = true) →
    (insertStr x l).Pairwise (fun a b => strLe a b = true) := by
  intro l
  induction l with
  | nil => intro _; simp [insertStr]
  | cons y l ih =>
    intro hp
    rw [List.pairwise_cons] at hp
    obtain ⟨hy, hl⟩ := hp
    by_cases h : strLe x y = true
    · rw [insertStr, if_pos h, List.pairwise_cons]
      refine ⟨?_, List.pairwise_cons.mpr ⟨hy, hl⟩⟩
      intro z hz
      rcases List.mem_cons.mp hz with rfl | hzl
      · exact h
      · exact strLe_trans h (hy z hzl)
    · rw [insertStr, if_neg h, List.pairwise_cons]
      refine ⟨?_, ih hl⟩
      intro z hz
      rcases mem_insertStr.mp hz with hzx | hzl
      · rw [hzx]
        rcases strLe_total x y with hx | hx
        · exact absurd hx h
        · exact hx
      · exact hy z hzl

theorem sortStrings_pairwise : ∀ l : List String,
    (sortStrings l).Pairwise (fun a b => strLe a b = true)
  | [] => List.Pairwise.nil
  | x :: l => @pairwise_insertStr x (sortStrings l) (sortStrings_pairwise l)

theorem mem_defaultRegNames {s : String} {cols mc : List String} :
    s ∈ defaultRegNames cols mc ↔ (s ∈ cols ∧ s ∉ mc) := by
  unfold defaultRegNames
  rw [(sortStrings_perm _).mem_iff, List.mem_dedup, List.mem_filter]
  simp

theorem defaultRegNames_nodup (cols mc : List String) : (defaultRegNames cols mc).Nodup :=
  ((sortStrings_perm _).nodup_iff).mpr (List.nodup_dedup _)

theorem defaultRegNames_sorted (cols mc : List String) :
    (defaultRegNames cols mc).Pairwise (fun a b => strLe a b = true) :=
  sortStrings_pairwise _

theorem prefMatch_refl : ∀ l : List Char, prefMatch l l = true
  | [] => rfl
  | a :: as => by simp [prefMatch, prefMatch_refl as]

theorem reMatch_refl (a : String) : reMatch a a = true :=
  prefMatch_refl a.data

theorem length_filter_two_le {α : Type} (l : List α) (p q r : α → Bool)
    (hp : ∀ x ∈ l, p x = true → r x = true)
    (hq : ∀ x ∈ l, q x = true → r x = true)
    (hdisj : ∀ x ∈ l, ¬(p x = true ∧ q x = true)) :
    (l.filter p).length + (l.filter q).length ≤ (l.filter r).length := by
  induction l with
  | nil => simp
  | cons x l ih =>
    have ih' := ih (fun y hy => hp y (List.mem_cons_of_mem _ hy))
      (fun y hy => hq y (List.mem_cons_of_mem _ hy))
      (fun y hy => hdisj y (List.mem_cons_of_mem _ hy))
    by_cases hpx : p x = true <;> by_cases hqx : q x = true
    · exact absurd ⟨hpx, hqx⟩ (hdisj x (List.mem_cons_self x l))
    · have hrx := hp x (List.mem_cons_self x l) hpx
      simp [List.filter_cons, hpx, hqx, hrx]
      omega
    · have hrx := hq x (List.mem_cons_self x l) hqx
      simp [List.filter_cons, hpx, hqx, hrx]
      omega
    · by_cases hrx : r x = true <;> simp [List.filter_cons, hpx, hqx, hrx] <;> omega

/-- Evaluation of `_bids2nipypeinfo` with default motion columns, once the
motion-column selection (the `np.savetxt` write) succeeds. -/
theorem run_eq (f : String) (ev : EventsTable) (t : RegTable)
    (rn : Option (List String)) (dec : Nat) (amp : Rat) {md : List (List Cell)}
    (hm : t.select motionDefault = some md) :
    _bids2nipypeinfo f ev t rn [] dec amp =
      some ([{ scans := f, conditions := conditionsOf ev,
               onsets := onsetsOf ev, durations := durationsOf ev,
               amplitudes := amplitudesOf ev amp,
               regressor_names :=
                 if (resolvedRegNames t rn motionDefault).isEmpty then none
                 else some (resolvedRegNames t rn motionDefault),
               regressors :=
                 if (resolvedRegNames t rn motionDefault).isEmpty then none
                 else some (regressorsOf t (resolvedRegNames t rn motionDefault)) }], md) := by
  unfold _bids2nipypeinfo
  simp only [List.isEmpty_nil, if_true]
  rw [hm]
  by_cases h : (resolvedRegNames t rn motionDefault).isEmpty
  · simp [h]
  · simp [h]

/-! ### Claim theorems -/

/-- **C6.** For 4 per-subject contrast maps `_dof` returns 3 and `_len`
returns 4; in general, for every list, `_len` is its length and `_dof` its
length minus one. -/
theorem dof_len_spec :
    _len ["c1", "c2", "c3", "c4"] = 4 ∧ _dof ["c1", "c2", "c3", "c4"] = 3 ∧
    ∀ (l : List String), _len l = l.length ∧ _dof l = (l.length : Int) - 1 :=
  ⟨rfl, rfl, fun _ => ⟨rfl, rfl⟩⟩

/-- **C3, counterexample.** The claim says all five selected result types are
staged into the derivatives directory.  `pe` is among the five `SelectFiles`
templates, yet no `workflow.connect` edge carries `feat_select`'s `pe`
output anywhere — in particular there is no `pe` derivatives sink — so `pe`
is selected but never staged. -/
theorem featselect_pe_not_staged :
    ("pe", "stats/pe[0-9][0-9].nii.gz") ∈ featSelectTemplates ∧
    ¬ staged "pe" ∧
    (firstLevelConnections.all
      (fun c => !(c.src == "feat_select" && c.srcPort == "pe"))) = true :=
  ⟨by decide, by decide, by decide⟩

/-- **C3, amended.** `first_level_wf` selects five result image types
(`cope`, `pe`, `tstat`, `varcope`, `zstat`) by fixed relative path from the
model-fit output, but stages only four of them — `cope`, `varcope`,
`zstat`, `tstat` — into the derivatives directory tagged with subject
(`source_file` from the BOLD entry) and result-type (`suffix`) metadata;
the selected `pe` maps are not staged. -/
theorem featselect_staging :
    featSelectTemplates.map Prod.fst = ["cope", "pe", "tstat", "varcope", "zstat"] ∧
    staged "cope" ∧ staged "varcope" ∧ staged "zstat" ∧ staged "tstat" ∧
    ¬ staged "pe" :=
  ⟨rfl, by decide, by decide, by decide, by decide, by decide⟩

/-- **C2 (code bug).** Called with `decimals := 2`, `_bids2nipypeinfo` still
rounds onsets and durations to 3 decimal places: the `decimals` parameter
is declared (default 3) but never used, every `np.round` call hardcoding 3.
At onset 1.234 and duration 0.5678 the claim demands 1.23 and 0.57; the
code produces 1.234 and 0.568. -/
theorem decimals_ignored :
    ((_bids2nipypeinfo "f.nii" evRound motionOnlyT none [] 2 1).map
      (fun p => p.1.map (fun i => (i.onsets, i.durations)))) =
      some [([[mkRat 1234 1000]], [[mkRat 568 1000]])] ∧
    mkRat 1234 1000 ≠ npRound 2 (mkRat 1234 1000) ∧
    mkRat 568 1000 ≠ npRound 2 (mkRat 5678 10000) :=
  ⟨by decide, by decide, by decide⟩

/-- **C1, counterexample.** Requesting regressors `["a", "b"]` from a table
whose only non-motion column is `a`: the function succeeds and the
regressor matrix falls back to the intersection (one row, for `a`), but the
`regressor_names` stored in the run-info is still the full requested list
`["a", "b"]` — it does not omit the absent `"b"` (it is not `["a"]`),
because the code assigns `runinfo.regressor_names` before the `KeyError`
fallback rebinds only the local variable. -/
theorem regressor_names_kept_cex :
    ((_bids2nipypeinfo "f.nii" evRound regOneExtraT (some ["a", "b"]) [] 3 1).map
      (fun p => p.1.map (fun i => (i.regressor_names, i.regressors)))) =
      some [(some ["a", "b"], some [[1]])] ∧
    "b" ∉ regOneExtraT.columns ∧
    (some ["a", "b"] : Option (List String)) ≠ some ["a"] :=
  ⟨by decide, by decide, by decide⟩

/-- **C7.** For the 10-row events table with trial types `A` (6 rows) and `B`
(4 rows), `_bids2nipypeinfo` returns a run-info with exactly 2 condition
entries whose onset-list lengths are 6 for `A` and 4 for `B`. -/
theorem runinfo_two_conditions :
    ∃ info motion,
      _bids2nipypeinfo "f.nii" evTwoTypes motionOnlyT none [] 3 1 =
        some ([info], motion) ∧
      info.conditions.length = 2 ∧
      ("A", 6) ∈ info.conditions.zip (info.onsets.map List.length) ∧
      ("B", 4) ∈ info.conditions.zip (info.onsets.map List.length) :=
  ⟨_, _, rfl, by decide, by decide, by decide⟩

/-- **C4.** For every confounds table containing the six fixed motion
columns, calling `_bids2nipypeinfo` with no explicit regressor-name list
derives the default list `sorted(set(columns) - set(motion_columns))`: it
is lexicographically sorted, duplicate-free, and holds exactly the
non-motion columns; the run-info stores it (when non-empty) in
`regressor_names`. -/
theorem default_regressor_names_spec (f : String) (ev : EventsTable) (t : RegTable)
    (md : List (List Cell)) (hm : t.select motionDefault = some md) :
    ∃ info motion,
      _bids2nipypeinfo f ev t none [] 3 1 = some ([info], motion) ∧
      info.regressor_names =
        (if (defaultRegNames t.columns motionDefault).isEmpty then none
         else some (defaultRegNames t.columns motionDefault)) ∧
      (defaultRegNames t.columns motionDefault).Pairwise (fun a b => strLe a b = true) ∧
      (defaultRegNames t.columns motionDefault).Nodup ∧
      ∀ s : String, s ∈ defaultRegNames t.columns motionDefault ↔
        (s ∈ t.columns ∧ s ∉ motionDefault) :=
  ⟨_, _, run_eq f ev t none 3 1 hm, rfl, defaultRegNames_sorted _ _,
   defaultRegNames_nodup _ _, fun _ => mem_defaultRegNames⟩

theorem default_regressor_names_spec_witness :
    regBAT.select motionDefault =
      some [[some 0], [some 0], [some 0], [some 0], [some 0], [some 0]] ∧
    (∃ info motion,
      _bids2nipypeinfo "f.nii" evRound regBAT none [] 3 1 = some ([info], motion) ∧
      info.regressor_names =
        (if (defaultRegNames regBAT.columns motionDefault).isEmpty then none
         else some (defaultRegNames regBAT.columns motionDefault)) ∧
      (defaultRegNames regBAT.columns motionDefault).Pairwise
        (fun a b => strLe a b = true) ∧
      (defaultRegNames regBAT.columns motionDefault).Nodup ∧
      ∀ s : String, s ∈ defaultRegNames regBAT.columns motionDefault ↔
        (s ∈ regBAT.columns ∧ s ∉ motionDefault)) :=
  ⟨by decide, default_regressor_names_spec "f.nii" evRound regBAT
    [[some 0], [some 0], [some 0], [some 0], [some 0], [some 0]] (by decide)⟩

/-- **C5.** For every events table without an `amplitudes` column, every
amplitude list in the run-info is `[amplitude] * len(event)`: the
configured default value (default 1.0), repeated to the length of the
matching onset list. -/
theorem amplitudes_default_spec (f : String) (ev : EventsTable) (t : RegTable)
    (rn : Option (List String)) (dec : Nat) (amp : Rat) (md : List (List Cell))
    (hm : t.select motionDefault = some md) (hA : ev.hasAmplitudes = false) :
    ∃ info motion,
      _bids2nipypeinfo f ev t rn [] dec amp = some ([info], motion) ∧
      info.amplitudes = info.onsets.map (fun l => List.replicate l.length amp) ∧
      info.amplitudes.length = info.onsets.length := by
  refine ⟨_, _, run_eq f ev t rn dec amp hm, ?_, ?_⟩
  · show amplitudesOf ev amp = (onsetsOf ev).map (fun l => List.replicate l.length amp)
    unfold amplitudesOf onsetsOf
    rw [List.map_map]
    simp [hA, Function.comp]
  · show (amplitudesOf ev amp).length = (onsetsOf ev).length
    simp [amplitudesOf, onsetsOf]

theorem amplitudes_default_spec_witness :
    motionOnlyT.select motionDefault =
      some [[some 0], [some 0], [some 0], [some 0], [some 0], [some 0]] ∧
    evTwoTypes.hasAmplitudes = false ∧
    (∃ info motion,
      _bids2nipypeinfo "f.nii" evTwoTypes motionOnlyT none [] 3 1 =
        some ([info], motion) ∧
      info.amplitudes = info.onsets.map (fun l => List.replicate l.length 1) ∧
      info.amplitudes.length = info.onsets.length) :=
  ⟨by decide, rfl,
   amplitudes_default_spec "f.nii" evTwoTypes motionOnlyT none 3 1
    [[some 0], [some 0], [some 0], [some 0], [some 0], [some 0]] (by decide) rfl⟩

/-- **C10.** When the resolved regressor-name list is empty (for example a
confounds table holding only the six motion columns, with no explicit
request), the returned run-info carries no `regressor_names` and no
`regressors` attribute at all (modelled as `none`), while still carrying
the conditions, onsets, durations and amplitudes data (one list per
condition). -/
theorem empty_regressors_omitted (f : String) (ev : EventsTable) (t : RegTable)
    (rn : Option (List String)) (dec : Nat) (amp : Rat) (md : List (List Cell))
    (hm : t.select motionDefault = some md)
    (he : resolvedRegNames t rn motionDefault = []) :
    ∃ info motion,
      _bids2nipypeinfo f ev t rn [] dec amp = some ([info], motion) ∧
      info.regressor_names = none ∧ info.regressors = none ∧
      info.conditions = conditionsOf ev ∧
      info.onsets.length = info.conditions.length ∧
      info.durations.length = info.conditions.length ∧
      info.amplitudes.length = info.conditions.length := by
  refine ⟨_, _, run_eq f ev t rn dec amp hm, ?_, ?_, rfl, ?_, ?_, ?_⟩
  · show (if (resolvedRegNames t rn motionDefault).isEmpty then none
          else some (resolvedRegNames t rn motionDefault)) = none
    simp [he]
  · show (if (resolvedRegNames t rn motionDefault).isEmpty then none
          else some (regressorsOf t (resolvedRegNames t rn motionDefault))) = none
    simp [he]
  · show (onsetsOf ev).length = (conditionsOf ev).length
    simp [onsetsOf]
  · show (durationsOf ev).length = (conditionsOf ev).length
    simp [durationsOf]
  · show (amplitudesOf ev amp).length = (conditionsOf ev).length
    simp [amplitudesOf]

theorem empty_regressors_omitted_witness :
    motionOnlyT.select motionDefault =
      some [[some 0], [some 0], [some 0], [some 0], [some 0], [some 0]] ∧
    resolvedRegNames motionOnlyT none motionDefault = [] ∧
    (∃ info motion,
      _bids2nipypeinfo "f.nii" evTwoTypes motionOnlyT none [] 3 1 =
        some ([info], motion) ∧
      info.regressor_names = none ∧ info.regressors = none ∧
      info.conditions = conditionsOf evTwoTypes ∧
      info.onsets.length = info.conditions.length ∧
      info.durations.length = info.conditions.length ∧
      info.amplitudes.length = info.conditions.length) :=
  ⟨by decide, by decide,
   empty_regressors_omitted "f.nii" evTwoTypes motionOnlyT none 3 1
    [[some 0], [some 0], [some 0], [some 0], [some 0], [some 0]]
    (by decide) (by decide)⟩

/-- **C9.** When all resolved regressor names are present in the confounds
table, the stored regressor matrix is exactly the selected columns with
`fillna(0.0)` applied cell-wise: a missing cell becomes `0` and a present
value passes through unchanged. -/
theorem regressors_fillna_spec (f : String) (ev : EventsTable) (t : RegTable)
    (rn : Option (List String)) (dec : Nat) (amp : Rat) (md : List (List Cell))
    (hm : t.select motionDefault = some md)
    (hne : resolvedRegNames t rn motionDefault ≠ [])
    (hall : ∀ n ∈ resolvedRegNames t rn motionDefault, n ∈ t.columns) :
    ∃ info motion,
      _bids2nipypeinfo f ev t rn [] dec amp = some ([info], motion) ∧
      info.regressors = some ((resolvedRegNames t rn motionDefault).map
        (fun n => ((t.getCol n).getD []).map fillCell)) ∧
      fillCell none = 0 ∧ (∀ v : Rat, fillCell (some v) = v) := by
  have hie : (resolvedRegNames t rn motionDefault).isEmpty = false := by
    simpa [List.isEmpty_iff] using hne
  refine ⟨_, _, run_eq f ev t rn dec amp hm, ?_, rfl, fun _ => rfl⟩
  show (if (resolvedRegNames t rn motionDefault).isEmpty then none
        else some (regressorsOf t (resolvedRegNames t rn motionDefault))) = _
  rw [hie]
  simp only [Bool.false_eq_true, if_false, Option.some.injEq]
  unfold regressorsOf
  rw [select_eq_some_of_forall_mem hall, List.map_map]
  rfl

theorem regressors_fillna_spec_witness :
    regNaNT.select motionDefault =
      some [[some 0, some 0], [some 0, some 0], [some 0, some 0],
            [some 0, some 0], [some 0, some 0], [some 0, some 0]] ∧
    resolvedRegNames regNaNT (some ["a"]) motionDefault ≠ [] ∧
    (∀ n ∈ resolvedRegNames regNaNT (some ["a"]) motionDefault,
      n ∈ regNaNT.columns) ∧
    (∃ info motion,
      _bids2nipypeinfo "f.nii" evRound regNaNT (some ["a"]) [] 3 1 =
        some ([info], motion) ∧
      info.regressors = some ((resolvedRegNames regNaNT (some ["a"]) motionDefault).map
        (fun n => ((regNaNT.getCol n).getD []).map fillCell)) ∧
      fillCell none = 0 ∧ (∀ v : Rat, fillCell (some v) = v)) :=
  ⟨by decide, by decide, by decide,
   regressors_fillna_spec "f.nii" evRound regNaNT (some ["a"]) 3 1
    [[some 0, some 0], [some 0, some 0], [some 0, some 0],
            [some 0, some 0], [some 0, some 0], [some 0, some 0]]
    (by decide) (by decide) (by decide)⟩

/-- **C1, amended.** When an explicitly requested regressor-name list is
non-empty and at least one requested name is absent from the confounds
table (so the column selection raises `KeyError`), `_bids2nipypeinfo` does
not fail — provided the motion columns are present — and the regressor
*matrix* falls back to the intersection of requested and available names,
with one row per present requested name (non-empty whenever at least one
requested name is present); but the stored regressor-*name* list remains
the full requested list, absent names included. -/
theorem regressor_fallback_amended (f : String) (ev : EventsTable) (t : RegTable)
    (ns : List String) (md : List (List Cell))
    (hm : t.select motionDefault = some md)
    (hne : ns ≠ [])
    (hmiss : t.select ns = none) :
    ∃ info motion m,
      _bids2nipypeinfo f ev t (some ns) [] 3 1 = some ([info], motion) ∧
      info.regressor_names = some ns ∧
      info.regressors = some m ∧
      m = (interNames ns t.columns).map (fun n => ((t.getCol n).getD []).map fillCell) ∧
      m.length = (interNames ns t.columns).length ∧
      ((∃ n ∈ ns, n ∈ t.columns) → m ≠ []) := by
  have hie : (resolvedRegNames t (some ns) motionDefault).isEmpty = false := by
    simpa [resolvedRegNames, List.isEmpty_iff] using hne
  have hallint : ∀ n ∈ interNames ns t.columns, n ∈ t.columns :=
    fun n hn => (mem_interNames.mp hn).2
  have hreg : regressorsOf t ns =
      (interNames ns t.columns).map (fun n => ((t.getCol n).getD []).map fillCell) := by
    unfold regressorsOf
    rw [hmiss, select_eq_some_of_forall_mem hallint, Option.getD_some, List.map_map]
    rfl
  refine ⟨_, _, regressorsOf t ns, run_eq f ev t (some ns) 3 1 hm, ?_, ?_, hreg, ?_, ?_⟩
  · show (if (resolvedRegNames t (some ns) motionDefault).isEmpty then none
          else some (resolvedRegNames t (some ns) motionDefault)) = some ns
    rw [hie]
    simp only [Bool.false_eq_true, if_false]
    rfl
  · show (if (resolvedRegNames t (some ns) motionDefault).isEmpty then none
          else some (regressorsOf t (resolvedRegNames t (some ns) motionDefault))) =
        some (regressorsOf t ns)
    rw [hie]
    simp only [Bool.false_eq_true, if_false]
    rfl
  · rw [hreg, List.length_map]
  · rintro ⟨n, hn, hnc⟩ hnil
    have hmem : n ∈ interNames ns t.columns := mem_interNames.mpr ⟨hn, hnc⟩
    rw [hreg] at hnil
    rw [List.map_eq_nil_iff] at hnil
    rw [hnil] at hmem
    exact List.not_mem_nil n hmem

theorem regressor_fallback_amended_witness :
    regOneExtraT.select motionDefault =
      some [[some 0], [some 0], [some 0], [some 0], [some 0], [some 0]] ∧
    (["a", "b"] : List String) ≠ [] ∧
    regOneExtraT.select ["a", "b"] = none ∧
    (∃ info motion m,
      _bids2nipypeinfo "f.nii" evRound regOneExtraT (some ["a", "b"]) [] 3 1 =
        some ([info], motion) ∧
      info.regressor_names = some ["a", "b"] ∧
      info.regressors = some m ∧
      m = (interNames ["a", "b"] regOneExtraT.columns).map
        (fun n => ((regOneExtraT.getCol n).getD []).map fillCell) ∧
      m.length = (interNames ["a", "b"] regOneExtraT.columns).length ∧
      ((∃ n ∈ (["a", "b"] : List String), n ∈ regOneExtraT.columns) → m ≠ [])) :=
  ⟨by decide, by decide, by decide,
   regressor_fallback_amended "f.nii" evRound regOneExtraT ["a", "b"]
    [[some 0], [some 0], [some 0], [some 0], [some 0], [some 0]]
    (by decide) (by decide) (by decide)⟩

/-- **C8.** Rows are assigned to a condition by a regex match anchored at
the start of the trial-type string (prefix matching), not by equality:
whenever trial type `a` is a prefix of trial type `b` (and `a` occurs in
the table), the condition list entry for `a` has one onset per row whose
trial type *starts with* `a` — so it also counts every row of the longer
type `b` on top of the rows equal to `a` — and its duration and amplitude
lists have that same length. -/
theorem prefix_condition_match (f : String) (ev : EventsTable) (t : RegTable)
    (a b : String) (md : List (List Cell))
    (hm : t.select motionDefault = some md)
    (hpre : reMatch a b = true) (hab : a ≠ b)
    (ha : ∃ r ∈ ev.rows, r.trial_type = a) :
    ∃ (info : RunInfo) (motion : List (List Cell)) (i : Nat) (la ld lam : List Rat),
      _bids2nipypeinfo f ev t none [] 3 1 = some ([info], motion) ∧
      info.conditions[i]? = some a ∧
      info.onsets[i]? = some la ∧
      info.durations[i]? = some ld ∧
      info.amplitudes[i]? = some lam ∧
      la.length = (ev.rows.filter (fun r => reMatch a r.trial_type)).length ∧
      ld.length = la.length ∧ lam.length = la.length ∧
      (ev.rows.filter (fun r => r.trial_type == a)).length
        + (ev.rows.filter (fun r => r.trial_type == b)).length ≤ la.length := by
  have hmem : a ∈ conditionsOf ev := by
    unfold conditionsOf
    rw [mem_pySet, List.mem_map]
    obtain ⟨r, hr, hra⟩ := ha
    exact ⟨r, hr, hra⟩
  obtain ⟨i, hi⟩ := List.mem_iff_getElem?.mp hmem
  refine ⟨_, _, i, (matchedRows ev a).map (fun r => npRound 3 r.onset),
    (matchedRows ev a).map (fun r => npRound 3 r.duration),
    (if ev.hasAmplitudes then (matchedRows ev a).map (fun r => npRound 3 r.amplitudes)
     else List.replicate (matchedRows ev a).length 1),
    run_eq f ev t none 3 1 hm, hi, ?_, ?_, ?_, ?_, ?_, ?_, ?_⟩
  · show (onsetsOf ev)[i]? = _
    unfold onsetsOf
    rw [List.getElem?_map, hi]
    rfl
  · show (durationsOf ev)[i]? = _
    unfold durationsOf
    rw [List.getElem?_map, hi]
    rfl
  · show (amplitudesOf ev 1)[i]? = _
    unfold amplitudesOf
    rw [List.getElem?_map, hi]
    rfl
  · show ((matchedRows ev a).map (fun r => npRound 3 r.onset)).length = _
    rw [List.length_map]
    rfl
  · rw [List.length_map, List.length_map]
  · by_cases hAmp : ev.hasAmplitudes <;>
      simp [hAmp, List.length_map, List.length_replicate]
  · rw [List.length_map]
    refine length_filter_two_le ev.rows _ _ _ ?_ ?_ ?_
    · intro r _ hr
      have : r.trial_type = a := by simpa using hr
      rw [this]
      exact reMatch_refl a
    · intro r _ hr
      have : r.trial_type = b := by simpa using hr
      rw [this]
      exact hpre
    · intro r _ hcon
      obtain ⟨h1, h2⟩ := hcon
      have e1 : r.trial_type = a := by simpa using h1
      have e2 : r.trial_type = b := by simpa using h2
      exact hab (e1 ▸ e2)

theorem prefix_condition_match_witness :
    motionOnlyT.select motionDefault =
      some [[some 0], [some 0], [some 0], [some 0], [some 0], [some 0]] ∧
    reMatch "A" "AB" = true ∧ ("A" : String) ≠ "AB" ∧
    (∃ r ∈ evAB.rows, r.trial_type = "A") ∧
    (∃ (info : RunInfo) (motion : List (List Cell)) (i : Nat) (la ld lam : List Rat),
      _bids2nipypeinfo "f.nii" evAB motionOnlyT none [] 3 1 =
        some ([info], motion) ∧
      info.conditions[i]? = some "A" ∧
      info.onsets[i]? = some la ∧
      info.durations[i]? = some ld ∧
      info.amplitudes[i]? = some lam ∧
      la.length = (evAB.rows.filter (fun r => reMatch "A" r.trial_type)).length ∧
      ld.length = la.length ∧ lam.length = la.length ∧
      (evAB.rows.filter (fun r => r.trial_type == "A")).length
        + (evAB.rows.filter (fun r => r.trial_type == "AB")).length ≤ la.length) :=
  ⟨by decide, by decide, by decide, by decide,
   prefix_condition_match "f.nii" evAB motionOnlyT "A" "AB"
    [[some 0], [some 0], [some 0], [some 0], [some 0], [some 0]]
    (by decide) (by decide) (by decide) (by decide)⟩

end Workflows
